import Mathlib

/-!
Verification of the schema-driven runtime validation engine described by the
repository's specification, together with the repository's own calling code
(`validateUser`, `createUser`, the `User` schema and the optional-field
schema).  The validation engine itself (schema model, constraint evaluator,
compiler, error reporter) is consumed from an external library and is not
present in the repository's sources; it is modelled here from the
specification, with every observable behavior (message strings, path
rendering) pinned by the assertions of the repository's test suite
(`src/validation-example.test.ts`), which is part of the sources.
-/

/-- Modelled from the spec: a literal schema matches one exact primitive
value (string, number or boolean), compared by deep equality. -/
inductive LitVal where
  | str (s : String)
  | num (n : Int)
  | bool (b : Bool)
deriving DecidableEq, Repr

mutual
/-- Modelled from the spec: the Schema Model, a closed tagged-variant tree:
primitives with refinement constraints (`minLength`, `maxLength`, `format`
for strings; `minimum`, `maximum` for numbers), literals, arrays, objects
with required/optional fields, and unions of alternatives.  Numbers are
modelled as integers (every number appearing in the repository is an
integer). -/
inductive Schema where
  | str (minLength maxLength : Option Nat) (format : Option String)
  | num (minimum maximum : Option Int)
  | boolean
  | nul
  | lit (value : LitVal)
  | arr (elem : Schema)
  | obj (fields : FieldList)
  | union (alts : SchemaList)

/-- Modelled from the spec: the ordered sequence of alternatives of a union
schema, tried in declaration order. -/
inductive SchemaList where
  | nil
  | cons (head : Schema) (tail : SchemaList)

/-- Modelled from the spec: the declared fields of an object schema, in
declaration order; each field carries its name, its sub-schema and its
required flag. -/
inductive FieldList where
  | nil
  | cons (name : String) (sch : Schema) (required : Bool) (tail : FieldList)
end

/-- A runtime value checked by the engine: strings, numbers, booleans,
null, arrays and key-value objects. -/
inductive Value where
  | str (s : String)
  | num (n : Int)
  | bool (b : Bool)
  | null
  | arr (items : List Value)
  | obj (fields : List (String × Value))

/-- A path segment of a violation: a field name or a numeric array index. -/
inductive Seg where
  | field (name : String)
  | index (i : Nat)
deriving DecidableEq, Repr

/-- Modelled from the spec: the taxonomy of violation kinds.  Kinds whose
canonical message embeds the offending bound carry that bound. -/
inductive ViolationKind where
  | typeMismatch (expected : String)
  | literalMismatch
  | missingRequired
  | unexpectedProperty
  | belowMinimum (bound : Int)
  | aboveMaximum (bound : Int)
  | lengthTooShort (bound : Nat)
  | lengthTooLong (bound : Nat)
  | formatInvalid (fmt : String)
  | noAlternativeMatched
deriving DecidableEq, Repr

/-- Modelled from the spec: a violation record `{path, kind, message}`,
with the path relative to the root of the checked value. -/
structure Violation where
  path : List Seg
  kind : ViolationKind
  message : String
deriving DecidableEq, Repr

/-- Modelled from the spec: the Error Reporter's canonical message for each
violation kind; exhaustive over all kinds.  The strings for length and
numeric bounds, for type mismatches, and for the union aggregate are pinned
by the test assertions (`Expected string length greater or equal to 2`,
`Expected number to be less or equal to 120`, `Expected string`,
`Expected boolean`, `Expected union value`).  The spec does not fix the
strings for the remaining kinds; the choices below follow the same style. -/
def canonicalMessage : ViolationKind → String
  | .typeMismatch expected => "Expected " ++ expected
  | .literalMismatch => "Expected literal value"
  | .missingRequired => "Expected required property"
  | .unexpectedProperty => "Unexpected property"
  | .belowMinimum bound => "Expected number to be greater or equal to " ++ toString bound
  | .aboveMaximum bound => "Expected number to be less or equal to " ++ toString bound
  | .lengthTooShort bound => "Expected string length greater or equal to " ++ toString bound
  | .lengthTooLong bound => "Expected string length less or equal to " ++ toString bound
  | .formatInvalid fmt => "Expected string to match format " ++ fmt
  | .noAlternativeMatched => "Expected union value"

/-- A violation at a path, carrying its kind's canonical message. -/
def mkViolation (p : List Seg) (k : ViolationKind) : Violation :=
  ⟨p, k, canonicalMessage k⟩

/-- Modelled from the spec: the spec names a `format` refinement for
strings but defines no semantics for any named format, and the repository
never exercises one (its only format annotation sits on an optional field
that no test or example validates).  Modelled as accepting. -/
def formatOk (_fmt : String) (_s : String) : Bool :=
  true

/-- Deep equality of a runtime value with a literal schema's value. -/
def litMatches : LitVal → Value → Bool
  | .str a, .str b => a == b
  | .num a, .num b => a == b
  | .bool a, .bool b => a == b
  | _, _ => false

mutual
/-- Modelled from the spec: the Constraint Evaluator,
`evaluate(schema, value, path) -> sequence of Violation` (empty ⇒ pass).
Primitives check the runtime kind then apply refinements in fixed order
(length bounds then format; minimum then maximum); literals compare deeply;
arrays evaluate every element with the path extended by its index, in index
order, with no short-circuit; objects evaluate every declared field in
declaration order (required and absent ⇒ `missingRequired`; optional and
absent ⇒ nothing; present ⇒ recursive evaluation at the extended path),
ignoring undeclared keys; unions pass iff some alternative passes and
otherwise emit exactly one `noAlternativeMatched` aggregate at the current
path. -/
def evaluate : Schema → Value → List Seg → List Violation
  | .str minL maxL fmt, v, p =>
    match v with
    | .str s =>
      (match minL with
        | some b => if s.length < b then [mkViolation p (.lengthTooShort b)] else []
        | none => []) ++
      (match maxL with
        | some b => if b < s.length then [mkViolation p (.lengthTooLong b)] else []
        | none => []) ++
      (match fmt with
        | some f => if formatOk f s then [] else [mkViolation p (.formatInvalid f)]
        | none => [])
    | _ => [mkViolation p (.typeMismatch "string")]
  | .num minB maxB, v, p =>
    match v with
    | .num n =>
      (match minB with
        | some b => if n < b then [mkViolation p (.belowMinimum b)] else []
        | none => []) ++
      (match maxB with
        | some b => if b < n then [mkViolation p (.aboveMaximum b)] else []
        | none => [])
    | _ => [mkViolation p (.typeMismatch "number")]
  | .boolean, v, p =>
    match v with
    | .bool _ => []
    | _ => [mkViolation p (.typeMismatch "boolean")]
  | .nul, v, p =>
    match v with
    | .null => []
    | _ => [mkViolation p (.typeMismatch "null")]
  | .lit lv, v, p =>
    if litMatches lv v then [] else [mkViolation p .literalMismatch]
  | .arr es, v, p =>
    match v with
    | .arr xs => ((xs.enum).map (fun ix => evaluate es ix.2 (p ++ [.index ix.1]))).flatten
    | _ => [mkViolation p (.typeMismatch "array")]
  | .obj fds, v, p =>
    match v with
    | .obj kvs => evalFields fds kvs p
    | _ => [mkViolation p (.typeMismatch "object")]
  | .union alts, v, p =>
    if anyPasses alts v p then [] else [mkViolation p .noAlternativeMatched]
termination_by structural s => s

/-- Modelled from the spec: object-field evaluation, every declared field in
declaration order, no short-circuit. -/
def evalFields : FieldList → List (String × Value) → List Seg → List Violation
  | .nil, _, _ => []
  | .cons name sch required tail, kvs, p =>
    (match List.lookup name kvs with
     | none => if required then [mkViolation (p ++ [.field name]) .missingRequired] else []
     | some w => evaluate sch w (p ++ [.field name])) ++
    evalFields tail kvs p
termination_by structural fds => fds

/-- Modelled from the spec: a union passes iff some alternative, tried in
declaration order, yields zero violations. -/
def anyPasses : SchemaList → Value → List Seg → Bool
  | .nil, _, _ => false
  | .cons a rest, v, p => (evaluate a v p).isEmpty || anyPasses rest v p
termination_by structural alts => alts
end

mutual
/-- Modelled from the spec: the Compiler's fast boolean path; it may
short-circuit at the first violation since only a boolean is returned. -/
def checkValue : Schema → Value → Bool
  | .str minL maxL fmt, v =>
    match v with
    | .str s =>
      (match minL with
        | some b => decide (b ≤ s.length)
        | none => true) &&
      (match maxL with
        | some b => decide (s.length ≤ b)
        | none => true) &&
      (match fmt with
        | some f => formatOk f s
        | none => true)
    | _ => false
  | .num minB maxB, v =>
    match v with
    | .num n =>
      (match minB with
        | some b => decide (b ≤ n)
        | none => true) &&
      (match maxB with
        | some b => decide (n ≤ b)
        | none => true)
    | _ => false
  | .boolean, v =>
    match v with
    | .bool _ => true
    | _ => false
  | .nul, v =>
    match v with
    | .null => true
    | _ => false
  | .lit lv, v => litMatches lv v
  | .arr es, v =>
    match v with
    | .arr xs => xs.all (fun x => checkValue es x)
    | _ => false
  | .obj fds, v =>
    match v with
    | .obj kvs => checkFields fds kvs
    | _ => false
  | .union alts, v => checkAlts alts v
termination_by structural s => s

/-- Fast boolean path over an object's declared fields. -/
def checkFields : FieldList → List (String × Value) → Bool
  | .nil, _ => true
  | .cons name sch required tail, kvs =>
    (match List.lookup name kvs with
     | none => !required
     | some w => checkValue sch w) &&
    checkFields tail kvs
termination_by structural fds => fds

/-- Fast boolean path over a union's alternatives. -/
def checkAlts : SchemaList → Value → Bool
  | .nil, _ => false
  | .cons a rest, v => checkValue a v || checkAlts rest v
termination_by structural alts => alts
end

/-- Modelled from the spec: a compiled Validator bound to one schema,
exposing a fast boolean check and a full error enumeration. -/
structure Validator where
  check : Value → Bool
  errors : Value → List Violation

/-- Modelled from the spec: `compile(schema) -> Validator`; deterministic
and side-effect-free.  `check` uses the fast boolean path; `errors`
enumerates the reference Constraint Evaluator's full violation set from the
root (empty path). -/
def compile (s : Schema) : Validator :=
  ⟨fun v => checkValue s v, fun v => evaluate s v []⟩

/-- The alternatives of a union schema as a plain list. -/
def SchemaList.toList : SchemaList → List Schema
  | .nil => []
  | .cons a rest => a :: rest.toList

/-- The declared fields of an object schema as a plain list. -/
def FieldList.toList : FieldList → List (String × Schema × Bool)
  | .nil => []
  | .cons name sch required tail => (name, sch, required) :: tail.toList

/-- Concatenation of two field declarations lists. -/
def FieldList.append : FieldList → FieldList → FieldList
  | .nil, gs => gs
  | .cons name sch required tail, gs => .cons name sch required (tail.append gs)

/-- The violations contributed by one declared field. -/
def fieldEval (fd : String × Schema × Bool) (kvs : List (String × Value)) (p : List Seg) :
    List Violation :=
  match List.lookup fd.1 kvs with
  | none => if fd.2.2 then [mkViolation (p ++ [.field fd.1]) .missingRequired] else []
  | some w => evaluate fd.2.1 w (p ++ [.field fd.1])

/-- Rendering of one path segment's content: field names verbatim, array
indices as their numeric value. -/
def segStr : Seg → String
  | .field name => name
  | .index i => toString i

/-- Modelled from the spec: the Error Reporter's path rendering, built
incrementally during descent, each segment prefixed by a slash. -/
def pathStr : List Seg → String
  | [] => ""
  | s :: rest => "/" ++ segStr s ++ pathStr rest

/-- Modelled from the spec: `format(violation) -> string`, producing
the joined path, a colon-space separator and the violation's message,
exactly as the repository's `validateUser` renders each error. -/
def format (viol : Violation) : String :=
  pathStr viol.path ++ ": " ++ viol.message

/-- The joined path exactly as the spec's words describe it: each segment
rendered prefixed by a slash and the results joined. -/
def joinedPathSpec (segs : List Seg) : String :=
  String.join (segs.map (fun s => "/" ++ segStr s))

/-- The union of role literals from the repository's `UserSchema`:
`Type.Union([Type.Literal('admin'), Type.Literal('user'),
Type.Literal('guest')])`. -/
def RoleSchema : Schema :=
  .union (.cons (.lit (.str "admin")) (.cons (.lit (.str "user"))
    (.cons (.lit (.str "guest")) .nil)))

/-- The union of theme literals from the repository's `UserSchema`:
`Type.Union([Type.Literal('light'), Type.Literal('dark')])`. -/
def ThemeSchema : Schema :=
  .union (.cons (.lit (.str "light")) (.cons (.lit (.str "dark")) .nil))

/-- The declared fields of the repository's `UserSchema`: required `id`
(string), `name` (string, minLength 2, maxLength 50), `email` (string),
`age` (number, minimum 0, maximum 120), `roles` (array of the role union)
and `settings` (object with required `notifications` boolean and `theme`
union). -/
def userFields : FieldList :=
  .cons "id" (.str none none none) true
    (.cons "name" (.str (some 2) (some 50) none) true
      (.cons "email" (.str none none none) true
        (.cons "age" (.num (some 0) (some 120)) true
          (.cons "roles" (.arr RoleSchema) true
            (.cons "settings"
              (.obj (.cons "notifications" .boolean true
                (.cons "theme" ThemeSchema true .nil))) true .nil)))))

/-- The repository's `UserSchema`. -/
def UserSchema : Schema :=
  .obj userFields

/-- The repository's `UserValidator`: `TypeCompiler.Compile(UserSchema)`. -/
def UserValidator : Validator :=
  compile UserSchema

/-- The result shape of the repository's `validateUser`. -/
structure ValidationResult where
  isValid : Bool
  errors : List String
deriving DecidableEq, Repr

/-- The repository's `validateUser`: checks the data with `UserValidator`,
and on failure renders each enumerated error as `path: message`. -/
def validateUser (data : Value) : ValidationResult :=
  let isValid := UserValidator.check data
  if !isValid then
    ⟨false, (UserValidator.errors data).map format⟩
  else
    ⟨true, []⟩

/-- The repository's `createUser`: throws
`Invalid user data:\n<joined errors>` when validation fails, and otherwise
returns the input data unchanged.  Throwing is modelled with `Except`. -/
def createUser (userData : Value) : Except String Value :=
  let validation := validateUser userData
  if !validation.isValid then
    .error ("Invalid user data:\n" ++ String.intercalate "\n" validation.errors)
  else
    .ok userData

/-- The repository's `OptionalUserSchema`: required `name` string, optional
`age` number, optional `email` string with format `email`. -/
def OptionalUserSchema : Schema :=
  .obj (.cons "name" (.str none none none) true
    (.cons "age" (.num none none) false
      (.cons "email" (.str none none (some "email")) false .nil)))

/-- The repository's `validUserData` example value. -/
def validUserData : Value :=
  .obj [("id", .str "123e4567-e89b-12d3-a456-426614174000"),
        ("name", .str "John Doe"),
        ("email", .str "john@example.com"),
        ("age", .num 30),
        ("roles", .arr [.str "user"]),
        ("settings", .obj [("notifications", .bool true),
                           ("theme", .str "dark")])]

/-- A value field-updated the way the tests build invalid variants of
`validUserData` (`{ ...validUserData, key: value }`). -/
def setField (v : Value) (key : String) (w : Value) : Value :=
  match v with
  | .obj kvs => .obj (kvs.map (fun kv => if kv.1 == key then (kv.1, w) else kv))
  | other => other

/-- The repository's `invalidUserData` example value: wrong `id` type,
too-short `name`, `age` above the maximum, an invalid role and invalid
settings. -/
def invalidUserData : Value :=
  .obj [("id", .num 123),
        ("name", .str "J"),
        ("email", .str "not-an-email"),
        ("age", .num 150),
        ("roles", .arr [.str "superuser"]),
        ("settings", .obj [("notifications", .str "yes"),
                           ("theme", .str "blue")])]

/-- The test suite's value with missing required fields:
`{ id: '123', name: 'John' }`. -/
def missingFieldsData : Value :=
  .obj [("id", .str "123"), ("name", .str "John")]

/-- A variant of `validUserData` violating exactly three independent
fields: `id` of the wrong type, `name` too short, `age` above the
maximum. -/
def threeBadData : Value :=
  setField (setField (setField validUserData "id" (.num 123)) "name" (.str "J"))
    "age" (.num 150)

/-- Element-wise evaluation over an enumeration from `n` rewritten as
evaluation over the numeric indices `0, …, length-1`, the element fetched
by index. -/
theorem evaluate_elems (es : Schema) :
    ∀ (xs : List Value) (n : Nat) (p : List Seg),
      (xs.enumFrom n).map (fun ix => evaluate es ix.2 (p ++ [Seg.index ix.1])) =
        (List.range xs.length).map
          (fun i => evaluate es (xs.getD i .null) (p ++ [Seg.index (n + i)]))
  | [], n, p => by simp
  | x :: xs, n, p => by
    rw [List.enumFrom_cons, List.length_cons, List.range_succ_eq_map xs.length,
      List.map_cons, List.map_cons, List.map_map]
    refine congrArg₂ _ (by rw [List.getD_cons_zero, Nat.add_zero]) ?_
    rw [evaluate_elems es xs (n + 1) p]
    refine List.map_congr_left (fun i _ => ?_)
    show evaluate es (xs.getD i .null) (p ++ [Seg.index (n + 1 + i)]) =
      evaluate es ((x :: xs).getD (i + 1) .null) (p ++ [Seg.index (n + (i + 1))])
    rw [List.getD_cons_succ, Nat.add_comm i 1, Nat.add_assoc]

/-- The Constraint Evaluator on an array value: every element is evaluated
against the element schema at the path extended with its numeric index, in
index order, and all the element violation lists are concatenated. -/
theorem evaluate_arr (es : Schema) (xs : List Value) (p : List Seg) :
    evaluate (.arr es) (.arr xs) p =
      ((List.range xs.length).map
        (fun i => evaluate es (xs.getD i .null) (p ++ [.index i]))).flatten := by
  show ((xs.enumFrom 0).map
    (fun ix => evaluate es ix.2 (p ++ [Seg.index ix.1]))).flatten = _
  rw [evaluate_elems es xs 0 p]
  refine congrArg _ (List.map_congr_left (fun i _ => ?_))
  rw [Nat.zero_add]

/-- Object evaluation as the concatenation, in declaration order, of each
declared field's contribution. -/
theorem evalFields_eq : ∀ (fds : FieldList) (kvs : List (String × Value)) (p : List Seg),
    evalFields fds kvs p = (fds.toList.map (fun fd => fieldEval fd kvs p)).flatten
  | .nil, kvs, p => by simp [evalFields, FieldList.toList]
  | .cons name sch required tail, kvs, p => by
    simp only [evalFields, FieldList.toList, List.map_cons, List.flatten_cons]
    rw [evalFields_eq tail kvs p]
    rfl
termination_by structural fds => fds

/-- Object evaluation distributes over concatenation of the declared
fields, in declaration order. -/
theorem evalFields_append : ∀ (fds gds : FieldList) (kvs : List (String × Value)) (p : List Seg),
    evalFields (fds.append gds) kvs p = evalFields fds kvs p ++ evalFields gds kvs p
  | .nil, gds, kvs, p => by simp [FieldList.append, evalFields]
  | .cons name sch required tail, gds, kvs, p => by
    simp only [FieldList.append, evalFields, List.append_assoc]
    rw [evalFields_append tail gds kvs p]
termination_by structural fds => fds

/-- A union's pass test succeeds iff some alternative yields zero
violations. -/
theorem anyPasses_iff : ∀ (alts : SchemaList) (v : Value) (p : List Seg),
    anyPasses alts v p = true ↔ ∃ a ∈ alts.toList, evaluate a v p = []
  | .nil, v, p => by simp [anyPasses, SchemaList.toList]
  | .cons a rest, v, p => by
    simp only [anyPasses, SchemaList.toList, Bool.or_eq_true, List.isEmpty_iff,
      List.mem_cons, anyPasses_iff rest v p]
    constructor
    · rintro (h | ⟨b, hb, h⟩)
      · exact ⟨a, Or.inl rfl, h⟩
      · exact ⟨b, Or.inr hb, h⟩
    · rintro ⟨b, (rfl | hb), h⟩
      · exact Or.inl h
      · exact Or.inr ⟨b, hb, h⟩
termination_by structural alts => alts

mutual
/-- The Compiler's fast boolean path agrees with emptiness of the reference
Constraint Evaluator's violation set, at every path. -/
theorem checkValue_iff : ∀ (s : Schema) (v : Value) (p : List Seg),
    checkValue s v = true ↔ evaluate s v p = []
  | .str minL maxL fmt, v, p => by
    cases v with
    | str s =>
      cases minL <;> cases maxL <;> cases fmt <;>
        simp [checkValue, evaluate, formatOk]
    | num n => simp [checkValue, evaluate, mkViolation]
    | bool b => simp [checkValue, evaluate, mkViolation]
    | null => simp [checkValue, evaluate, mkViolation]
    | arr xs => simp [checkValue, evaluate, mkViolation]
    | obj kvs => simp [checkValue, evaluate, mkViolation]
  | .num minB maxB, v, p => by
    cases v with
    | num n =>
      cases minB <;> cases maxB <;>
        simp [checkValue, evaluate]
    | str s => simp [checkValue, evaluate, mkViolation]
    | bool b => simp [checkValue, evaluate, mkViolation]
    | null => simp [checkValue, evaluate, mkViolation]
    | arr xs => simp [checkValue, evaluate, mkViolation]
    | obj kvs => simp [checkValue, evaluate, mkViolation]
  | .boolean, v, p => by
    cases v <;> simp [checkValue, evaluate, mkViolation]
  | .nul, v, p => by
    cases v <;> simp [checkValue, evaluate, mkViolation]
  | .lit lv, v, p => by
    simp only [checkValue, evaluate]
    cases h : litMatches lv v <;> simp [h, mkViolation]
  | .arr es, v, p => by
    have ih : ∀ (x : Value) (p' : List Seg), checkValue es x = true ↔ evaluate es x p' = [] :=
      fun x p' => checkValue_iff es x p'
    cases v with
    | arr xs =>
      simp only [checkValue]
      rw [evaluate_arr, List.all_eq_true, List.flatten_eq_nil_iff]
      constructor
      · intro h l hl
        rw [List.mem_map] at hl
        obtain ⟨i, hi, rfl⟩ := hl
        rw [List.mem_range] at hi
        have hx : xs.getD i .null ∈ xs := by
          rw [List.getD_eq_getElem _ _ hi]
          exact List.getElem_mem hi
        exact (ih _ _).mp (h _ hx)
      · intro h x hx
        rw [List.mem_iff_getElem] at hx
        obtain ⟨i, hi, rfl⟩ := hx
        refine (ih _ (p ++ [.index i])).mpr ?_
        refine h _ (List.mem_map.mpr ⟨i, List.mem_range.mpr hi, ?_⟩)
        rw [List.getD_eq_getElem _ _ hi]
    | str s => simp [checkValue, evaluate, mkViolation]
    | num n => simp [checkValue, evaluate, mkViolation]
    | bool b => simp [checkValue, evaluate, mkViolation]
    | null => simp [checkValue, evaluate, mkViolation]
    | obj kvs => simp [checkValue, evaluate, mkViolation]
  | .obj fds, v, p => by
    cases v with
    | obj kvs =>
      simp only [checkValue, evaluate]
      exact checkFields_iff fds kvs p
    | str s => simp [checkValue, evaluate, mkViolation]
    | num n => simp [checkValue, evaluate, mkViolation]
    | bool b => simp [checkValue, evaluate, mkViolation]
    | null => simp [checkValue, evaluate, mkViolation]
    | arr xs => simp [checkValue, evaluate, mkViolation]
  | .union alts, v, p => by
    simp only [checkValue, evaluate, checkAlts_eq alts v p]
    cases h : anyPasses alts v p <;> simp [h, mkViolation]
termination_by structural s => s

/-- The fast field check agrees with emptiness of the field violations. -/
theorem checkFields_iff : ∀ (fds : FieldList) (kvs : List (String × Value)) (p : List Seg),
    checkFields fds kvs = true ↔ evalFields fds kvs p = []
  | .nil, kvs, p => by simp [checkFields, evalFields]
  | .cons name sch required tail, kvs, p => by
    have ih := checkFields_iff tail kvs p
    have ihs := fun (w : Value) (p' : List Seg) => checkValue_iff sch w p'
    simp only [checkFields, evalFields, Bool.and_eq_true, List.append_eq_nil]
    cases hl : List.lookup name kvs with
    | none => cases required <;> simp [ih, mkViolation]
    | some w => simp [ih, ihs w (p ++ [.field name])]
termination_by structural fds => fds

/-- The fast alternative check coincides with the union pass test. -/
theorem checkAlts_eq : ∀ (alts : SchemaList) (v : Value) (p : List Seg),
    checkAlts alts v = anyPasses alts v p
  | .nil, _, _ => rfl
  | .cons a rest, v, p => by
    simp only [checkAlts, anyPasses]
    rw [checkAlts_eq rest v p]
    have h := checkValue_iff a v p
    cases h1 : checkValue a v <;> cases h2 : (evaluate a v p).isEmpty <;>
      simp_all [List.isEmpty_iff]
termination_by structural alts => alts
end

/-- Joining a non-empty list of strings prepends its head. -/
theorem join_cons (a : String) (l : List String) :
    String.join (a :: l) = a ++ String.join l := by
  simp [String.join]
  induction l generalizing a with
  | nil => simp
  | cons b t ih =>
    simp [List.foldl_cons]
    rw [ih (a ++ b), ih b, String.append_assoc]

/-- The incrementally built path string is the join of the slash-prefixed
rendered segments. -/
theorem pathStr_eq_join : ∀ (segs : List Seg), pathStr segs = joinedPathSpec segs
  | [] => rfl
  | s :: rest => by
    rw [pathStr, pathStr_eq_join rest]
    simp only [joinedPathSpec, List.map_cons, join_cons, String.append_assoc]

/-- A member of a conditionally emitted single canonical violation carries
its kind's canonical message. -/
theorem mem_boundViol {c : Prop} [Decidable c] {p : List Seg} {k : ViolationKind}
    {viol : Violation} (h : viol ∈ (if c then [mkViolation p k] else [])) :
    viol.message = canonicalMessage viol.kind := by
  split at h
  · simp at h
    subst h
    rfl
  · simp at h

/-- As `mem_boundViol`, for a violation emitted when the condition fails. -/
theorem mem_boundViolNeg {c : Prop} [Decidable c] {p : List Seg} {k : ViolationKind}
    {viol : Violation} (h : viol ∈ (if c then [] else [mkViolation p k])) :
    viol.message = canonicalMessage viol.kind := by
  split at h
  · simp at h
  · simp at h
    subst h
    rfl

/-- A member of a singleton canonical violation list carries its kind's
canonical message. -/
theorem mem_singleton_canonical {p : List Seg} {k : ViolationKind} {viol : Violation}
    (h : viol ∈ [mkViolation p k]) : viol.message = canonicalMessage viol.kind := by
  simp at h
  subst h
  rfl

mutual
/-- Every violation the Constraint Evaluator produces carries its kind's
canonical message. -/
theorem evaluate_message : ∀ (s : Schema) (v : Value) (p : List Seg) (viol : Violation),
    viol ∈ evaluate s v p → viol.message = canonicalMessage viol.kind
  | .str minL maxL fmt, v, p, viol => by
    cases v with
    | str s =>
      intro h
      simp only [evaluate, List.mem_append] at h
      rcases h with (h | h) | h
      · cases minL with
        | none => simp at h
        | some b => exact mem_boundViol h
      · cases maxL with
        | none => simp at h
        | some b => exact mem_boundViol h
      · cases fmt with
        | none => simp at h
        | some f => exact mem_boundViolNeg h
    | num n => exact fun h => mem_singleton_canonical h
    | bool b => exact fun h => mem_singleton_canonical h
    | null => exact fun h => mem_singleton_canonical h
    | arr xs => exact fun h => mem_singleton_canonical h
    | obj kvs => exact fun h => mem_singleton_canonical h
  | .num minB maxB, v, p, viol => by
    cases v with
    | num n =>
      intro h
      simp only [evaluate, List.mem_append] at h
      rcases h with h | h
      · cases minB with
        | none => simp at h
        | some b => exact mem_boundViol h
      · cases maxB with
        | none => simp at h
        | some b => exact mem_boundViol h
    | str s => exact fun h => mem_singleton_canonical h
    | bool b => exact fun h => mem_singleton_canonical h
    | null => exact fun h => mem_singleton_canonical h
    | arr xs => exact fun h => mem_singleton_canonical h
    | obj kvs => exact fun h => mem_singleton_canonical h
  | .boolean, v, p, viol => by
    cases v with
    | bool b => intro h; simp [evaluate] at h
    | str s => exact fun h => mem_singleton_canonical h
    | num n => exact fun h => mem_singleton_canonical h
    | null => exact fun h => mem_singleton_canonical h
    | arr xs => exact fun h => mem_singleton_canonical h
    | obj kvs => exact fun h => mem_singleton_canonical h
  | .nul, v, p, viol => by
    cases v with
    | null => intro h; simp [evaluate] at h
    | str s => exact fun h => mem_singleton_canonical h
    | num n => exact fun h => mem_singleton_canonical h
    | bool b => exact fun h => mem_singleton_canonical h
    | arr xs => exact fun h => mem_singleton_canonical h
    | obj kvs => exact fun h => mem_singleton_canonical h
  | .lit lv, v, p, viol => by
    intro h
    simp only [evaluate] at h
    exact mem_boundViolNeg h
  | .arr es, v, p, viol => by
    cases v with
    | arr xs =>
      intro h
      simp only [evaluate] at h
      rw [List.mem_flatten] at h
      obtain ⟨l, hl, hv⟩ := h
      rw [List.mem_map] at hl
      obtain ⟨ix, _, rfl⟩ := hl
      exact evaluate_message es ix.2 (p ++ [.index ix.1]) viol hv
    | str s => exact fun h => mem_singleton_canonical h
    | num n => exact fun h => mem_singleton_canonical h
    | bool b => exact fun h => mem_singleton_canonical h
    | null => exact fun h => mem_singleton_canonical h
    | obj kvs => exact fun h => mem_singleton_canonical h
  | .obj fds, v, p, viol => by
    cases v with
    | obj kvs =>
      intro h
      simp only [evaluate] at h
      exact evalFields_message fds kvs p viol h
    | str s => exact fun h => mem_singleton_canonical h
    | num n => exact fun h => mem_singleton_canonical h
    | bool b => exact fun h => mem_singleton_canonical h
    | null => exact fun h => mem_singleton_canonical h
    | arr xs => exact fun h => mem_singleton_canonical h
  | .union alts, v, p, viol => by
    intro h
    simp only [evaluate] at h
    exact mem_boundViolNeg h
termination_by structural s => s

/-- Every violation contributed by an object's declared fields carries its
kind's canonical message. -/
theorem evalFields_message : ∀ (fds : FieldList) (kvs : List (String × Value)) (p : List Seg)
    (viol : Violation), viol ∈ evalFields fds kvs p → viol.message = canonicalMessage viol.kind
  | .nil, kvs, p, viol => by
    intro h
    simp [evalFields] at h
  | .cons name sch required tail, kvs, p, viol => by
    intro h
    simp only [evalFields, List.mem_append] at h
    rcases h with h | h
    · cases hl : List.lookup name kvs with
      | none =>
        rw [hl] at h
        exact mem_boundViol h
      | some w =>
        rw [hl] at h
        exact evaluate_message sch w (p ++ [.field name]) viol h
    · exact evalFields_message tail kvs p viol h
termination_by structural fds => fds
end

/-- C1: for every compiled Validator and every value, `check` returns true
iff `errors` returns an empty sequence of violations; the repository's
`validateUser` wrapper inherits the same consistency between its boolean
verdict and its error list. -/
theorem claim_C1 (s : Schema) (v : Value) :
    ((compile s).check v = true ↔ (compile s).errors v = []) ∧
    ((validateUser v).isValid = true ↔ (validateUser v).errors = []) := by
  refine ⟨checkValue_iff s v [], ?_⟩
  cases h : UserValidator.check v with
  | true => simp [validateUser, h]
  | false =>
    rw [show UserValidator.check v = checkValue UserSchema v from rfl] at h
    have hne : evaluate UserSchema v [] ≠ [] := by
      intro he
      have ht := (checkValue_iff UserSchema v []).mpr he
      rw [h] at ht
      exact Bool.false_ne_true ht
    simp [validateUser, UserValidator, compile, h, hne]

/-- C2 counterexample: the claimed positional mapping is false on the
engine: a `lengthTooShort` violation carries the message
`Expected string length greater or equal to 2`, not the claimed
`Expected string length less or equal to 2`, and an `aboveMaximum`
violation carries `Expected number to be less or equal to 120`, not the
claimed `Expected number to be greater or equal to 120` — exactly what the
repository's tests assert. -/
theorem claim_C2_counterexample :
    evaluate (.str (some 2) (some 50) none) (.str "J") [] =
      [⟨[], .lengthTooShort 2, "Expected string length greater or equal to 2"⟩] ∧
    evaluate (.num (some 0) (some 120)) (.num 150) [] =
      [⟨[], .aboveMaximum 120, "Expected number to be less or equal to 120"⟩] ∧
    "Expected string length greater or equal to 2" ≠
      "Expected string length less or equal to 2" ∧
    "Expected number to be less or equal to 120" ≠
      "Expected number to be greater or equal to 120" :=
  ⟨rfl, rfl, by decide, by decide⟩

/-- C2 (amended): the canonical message mapping pairs the kinds the other
way round: for every violation the evaluator produces, `lengthTooShort`
carries `Expected string length greater or equal to <bound>`,
`lengthTooLong` carries `Expected string length less or equal to <bound>`,
`belowMinimum` carries `Expected number to be greater or equal to <bound>`
and `aboveMaximum` carries `Expected number to be less or equal to
<bound>`. -/
theorem claim_C2 (s : Schema) (v : Value) (p : List Seg) (viol : Violation)
    (h : viol ∈ evaluate s v p) :
    (∀ b : Nat, viol.kind = .lengthTooShort b →
      viol.message = "Expected string length greater or equal to " ++ toString b) ∧
    (∀ b : Nat, viol.kind = .lengthTooLong b →
      viol.message = "Expected string length less or equal to " ++ toString b) ∧
    (∀ b : Int, viol.kind = .belowMinimum b →
      viol.message = "Expected number to be greater or equal to " ++ toString b) ∧
    (∀ b : Int, viol.kind = .aboveMaximum b →
      viol.message = "Expected number to be less or equal to " ++ toString b) := by
  have hm := evaluate_message s v p viol h
  exact ⟨fun b hk => by rw [hm, hk]; rfl,
         fun b hk => by rw [hm, hk]; rfl,
         fun b hk => by rw [hm, hk]; rfl,
         fun b hk => by rw [hm, hk]; rfl⟩

theorem claim_C2_witness :
    (⟨[], ViolationKind.lengthTooShort 2,
        "Expected string length greater or equal to 2"⟩ : Violation).message =
      "Expected string length greater or equal to " ++ toString 2 :=
  (claim_C2 (.str (some 2) (some 50) none) (.str "J") []
      ⟨[], .lengthTooShort 2, "Expected string length greater or equal to 2"⟩
      (by decide)).1 2 rfl

/-- C3: a union yields exactly one aggregate `noAlternativeMatched`
violation located at the current path, with the canonical union message
and no per-alternative detail, when every alternative fails; it yields
zero violations when some alternative passes. -/
theorem claim_C3 (alts : SchemaList) (v : Value) (p : List Seg) :
    ((∀ a ∈ alts.toList, evaluate a v p ≠ []) →
      evaluate (.union alts) v p = [⟨p, .noAlternativeMatched, "Expected union value"⟩]) ∧
    ((∃ a ∈ alts.toList, evaluate a v p = []) → evaluate (.union alts) v p = []) := by
  constructor
  · intro hfail
    cases hp : anyPasses alts v p with
    | false => simp [evaluate, hp, mkViolation, canonicalMessage]
    | true =>
      obtain ⟨a, ha, he⟩ := (anyPasses_iff alts v p).mp hp
      exact absurd he (hfail a ha)
  · intro hpass
    have hp : anyPasses alts v p = true := (anyPasses_iff alts v p).mpr hpass
    simp [evaluate, hp]

theorem claim_C3_witness :
    evaluate (.union (.cons (.lit (.str "light")) (.cons (.lit (.str "dark")) .nil)))
      (.str "blue") [] = [⟨[], .noAlternativeMatched, "Expected union value"⟩] ∧
    evaluate (.union (.cons (.lit (.str "light")) (.cons (.lit (.str "dark")) .nil)))
      (.str "dark") [] = [] :=
  ⟨(claim_C3 (.cons (.lit (.str "light")) (.cons (.lit (.str "dark")) .nil))
      (.str "blue") []).1 (by decide),
   (claim_C3 (.cons (.lit (.str "light")) (.cons (.lit (.str "dark")) .nil))
      (.str "dark") []).2 (by decide)⟩

/-- C4: array evaluation checks every element against the element schema at
the path extended with the element's numeric index, in index order, with no
short-circuit; concretely the role array on `["superuser"]` yields exactly
one `noAlternativeMatched` violation at index 0, and two failing elements
are both reported, in index order. -/
theorem claim_C4 :
    (∀ (es : Schema) (xs : List Value) (p : List Seg),
      evaluate (.arr es) (.arr xs) p =
        ((List.range xs.length).map
          (fun i => evaluate es (xs.getD i .null) (p ++ [.index i]))).flatten) ∧
    evaluate (.arr RoleSchema) (.arr [.str "superuser"]) [] =
      [⟨[.index 0], .noAlternativeMatched, "Expected union value"⟩] ∧
    evaluate (.arr RoleSchema) (.arr [.str "superuser", .str "root"]) [] =
      [⟨[.index 0], .noAlternativeMatched, "Expected union value"⟩,
       ⟨[.index 1], .noAlternativeMatched, "Expected union value"⟩] :=
  ⟨evaluate_arr, rfl, rfl⟩

/-- C5: `format` renders a violation as the slash-joined path, a colon-space
separator and the message, with array indices rendered as their numeric
value; concretely a violation in element 0 of field `roles` renders as
`/roles/0: …`, as the repository's `validateUser` output shows. -/
theorem claim_C5 :
    (∀ viol : Violation, format viol = joinedPathSpec viol.path ++ ": " ++ viol.message) ∧
    format ⟨[.field "roles", .index 0], .noAlternativeMatched, "Expected union value"⟩ =
      "/roles/0: Expected union value" ∧
    (validateUser (setField validUserData "roles" (.arr [.str "superuser"]))).errors =
      ["/roles/0: Expected union value"] := by
  refine ⟨fun viol => ?_, rfl, rfl⟩
  rw [format, pathStr_eq_join]

/-- C6: object evaluation enumerates every declared field in declaration
order with no short-circuit: the violations of concatenated field
declarations are the concatenated per-part violations, the output is the
declaration-ordered concatenation of per-field contributions, and a value
violating the three independent fields `id`, `name` and `age` of
`UserSchema` yields exactly those three violations, at the correct field
paths, in declaration order. -/
theorem claim_C6 :
    (∀ (fds gds : FieldList) (kvs : List (String × Value)) (p : List Seg),
      evalFields (fds.append gds) kvs p = evalFields fds kvs p ++ evalFields gds kvs p) ∧
    (∀ (fds : FieldList) (kvs : List (String × Value)) (p : List Seg),
      evaluate (.obj fds) (.obj kvs) p =
        (fds.toList.map (fun fd => fieldEval fd kvs p)).flatten) ∧
    evaluate UserSchema threeBadData [] =
      [⟨[.field "id"], .typeMismatch "string", "Expected string"⟩,
       ⟨[.field "name"], .lengthTooShort 2, "Expected string length greater or equal to 2"⟩,
       ⟨[.field "age"], .aboveMaximum 120, "Expected number to be less or equal to 120"⟩] :=
  ⟨evalFields_append, fun fds kvs p => evalFields_eq fds kvs p, rfl⟩

/-- C7: a field declared optional and omitted entirely contributes zero
violations, while an optional `Number` field present with a non-number
value contributes exactly one `typeMismatch` violation at that field's
path; concretely on `OptionalUserSchema`, omitting `age` yields zero
violations and a string-valued `age` yields one `typeMismatch` at
`["age"]`. -/
theorem claim_C7 :
    (∀ (name : String) (sch : Schema) (tail : FieldList) (kvs : List (String × Value))
        (p : List Seg), List.lookup name kvs = none →
      evalFields (.cons name sch false tail) kvs p = evalFields tail kvs p) ∧
    (∀ (name : String) (minB maxB : Option Int) (tail : FieldList)
        (kvs : List (String × Value)) (p : List Seg) (w : Value),
      List.lookup name kvs = some w → (∀ n : Int, w ≠ .num n) →
      evalFields (.cons name (.num minB maxB) false tail) kvs p =
        mkViolation (p ++ [.field name]) (.typeMismatch "number") ::
          evalFields tail kvs p) ∧
    evaluate OptionalUserSchema (.obj [("name", .str "John")]) [] = [] ∧
    evaluate OptionalUserSchema (.obj [("name", .str "John"), ("age", .str "30")]) [] =
      [⟨[.field "age"], .typeMismatch "number", "Expected number"⟩] := by
  refine ⟨?_, ?_, rfl, rfl⟩
  · intro name sch tail kvs p h
    simp [evalFields, h]
  · intro name minB maxB tail kvs p w hl hw
    simp only [evalFields, hl]
    cases w with
    | num n => exact absurd rfl (hw n)
    | str s => simp [evaluate]
    | bool b => simp [evaluate]
    | null => simp [evaluate]
    | arr xs => simp [evaluate]
    | obj kvs2 => simp [evaluate]

theorem claim_C7_witness :
    evalFields (.cons "age" (.num none none) false .nil) [("name", Value.str "John")] [] =
      evalFields .nil [("name", Value.str "John")] [] ∧
    evalFields (.cons "age" (.num none none) false .nil) [("age", Value.str "30")] [] =
      mkViolation ([] ++ [.field "age"]) (.typeMismatch "number") ::
        evalFields .nil [("age", Value.str "30")] [] :=
  ⟨claim_C7.1 "age" (.num none none) .nil [("name", Value.str "John")] [] rfl,
   claim_C7.2.1 "age" none none .nil [("age", Value.str "30")] [] (Value.str "30") rfl
     (fun _ h => Value.noConfusion h)⟩

/-- C8: checking is total — nonconformance is reported only as returned
violations: any required declared field absent from an object value is
reported as a `missingRequired` violation at that field's path, and the
test's value with missing required fields is rejected by `check` with
exactly the four `missingRequired` violations, not a failure. -/
theorem claim_C8 :
    (∀ (fds : FieldList) (kvs : List (String × Value)) (p : List Seg) (name : String)
        (sch : Schema), (name, sch, true) ∈ fds.toList → List.lookup name kvs = none →
      mkViolation (p ++ [.field name]) .missingRequired ∈
        evaluate (.obj fds) (.obj kvs) p) ∧
    UserValidator.check missingFieldsData = false ∧
    UserValidator.errors missingFieldsData =
      [⟨[.field "email"], .missingRequired, "Expected required property"⟩,
       ⟨[.field "age"], .missingRequired, "Expected required property"⟩,
       ⟨[.field "roles"], .missingRequired, "Expected required property"⟩,
       ⟨[.field "settings"], .missingRequired, "Expected required property"⟩] := by
  refine ⟨?_, rfl, rfl⟩
  intro fds kvs p name sch hmem hlook
  show mkViolation (p ++ [.field name]) .missingRequired ∈ evalFields fds kvs p
  rw [evalFields_eq, List.mem_flatten]
  refine ⟨fieldEval (name, sch, true) kvs p,
    List.mem_map.mpr ⟨(name, sch, true), hmem, rfl⟩, ?_⟩
  simp [fieldEval, hlook]

theorem claim_C8_witness :
    mkViolation ([] ++ [Seg.field "email"]) .missingRequired ∈
      evaluate (.obj userFields) (.obj [("id", Value.str "123"), ("name", Value.str "John")]) [] :=
  claim_C8.1 userFields [("id", Value.str "123"), ("name", Value.str "John")] []
    "email" (.str none none none) (by simp [userFields, FieldList.toList]) rfl

/-- C9: compilation is deterministic and behaviorally
equivalence-preserving: the compiled `check` agrees with emptiness of the
reference Constraint Evaluator's violation set, the compiled `errors` are
exactly the reference evaluator's violations, and any two Validators
compiled from the same schema have identical checking behavior on every
value. -/
theorem claim_C9 (s : Schema) (v : Value) :
    ((compile s).check v = true ↔ evaluate s v [] = []) ∧
    (compile s).errors v = evaluate s v [] ∧
    (∀ W X : Validator, W = compile s → X = compile s →
      W.check v = X.check v ∧ W.errors v = X.errors v) := by
  refine ⟨checkValue_iff s v [], rfl, ?_⟩
  rintro W X rfl rfl
  exact ⟨rfl, rfl⟩

theorem claim_C9_witness :
    (UserValidator.check validUserData = true ↔ evaluate UserSchema validUserData [] = []) ∧
    UserValidator.check validUserData = (compile UserSchema).check validUserData :=
  ⟨(claim_C9 UserSchema validUserData).1,
   ((claim_C9 UserSchema validUserData).2.2 UserValidator (compile UserSchema) rfl rfl).1⟩

/-- C10: `createUser` returns its input unchanged exactly when the
validator accepts it, and otherwise fails with an error whose message
begins with `Invalid user data`, followed by the newline-joined formatted
violations. -/
theorem claim_C10 (d : Value) :
    (UserValidator.check d = true → createUser d = .ok d) ∧
    (UserValidator.check d = false →
      createUser d = .error ("Invalid user data:\n" ++
        String.intercalate "\n" ((UserValidator.errors d).map format)) ∧
      ∃ rest, "Invalid user data:\n" ++
          String.intercalate "\n" ((UserValidator.errors d).map format) =
        "Invalid user data" ++ rest) := by
  constructor
  · intro h
    rw [show UserValidator.check d = checkValue UserSchema d from rfl] at h
    simp [createUser, validateUser, UserValidator, compile, h]
  · intro h
    rw [show UserValidator.check d = checkValue UserSchema d from rfl] at h
    refine ⟨by simp [createUser, validateUser, UserValidator, compile, h], ?_⟩
    refine ⟨":\n" ++ String.intercalate "\n" ((UserValidator.errors d).map format), ?_⟩
    rw [← String.append_assoc]
    congr 1

theorem claim_C10_witness :
    createUser validUserData = .ok validUserData ∧
    createUser invalidUserData = .error ("Invalid user data:\n" ++
      String.intercalate "\n" ((UserValidator.errors invalidUserData).map format)) :=
  ⟨(claim_C10 validUserData).1 rfl, ((claim_C10 invalidUserData).2 rfl).1⟩

/-- The model reproduces the repository's printed output on its two example
values: the valid user passes with no errors, and the invalid user yields
exactly the six rendered errors, in declaration order. -/
theorem validateUser_examples :
    validateUser validUserData = ⟨true, []⟩ ∧
    validateUser invalidUserData = ⟨false,
      ["/id: Expected string",
       "/name: Expected string length greater or equal to 2",
       "/age: Expected number to be less or equal to 120",
       "/roles/0: Expected union value",
       "/settings/notifications: Expected boolean",
       "/settings/theme: Expected union value"]⟩ :=
  ⟨rfl, rfl⟩
